import Mathlib

/-!
# Verification of the Fight_app conversation-text analyzer

A shallow embedding, in Lean 4, of the heuristic conversation-text parser and
tone/sentiment classifier of the Fight_app repository, together with theorems
settling the specification claims about it.

Two service variants are embedded:

* `OCRService` — the "live" analyzer (`src/unnamed/part_002`): message parsing,
  participant extraction, tone/sentiment classification, key-topic extraction,
  communication-pattern flags, and the unclamped confidence aggregate.
* `MockOCRService` — the "mock" analyzer (`src/src/services/OCRService.ts`):
  the §4.7 OCR-artifact cleanup (`processConversationText`), the structured
  merge pass (`identifyConversationStructure`), and the capped confidence
  aggregate.

Strings are modelled as `List Char` (the code points of the JavaScript
string).  JavaScript-specific behaviour is embedded explicitly:

* `jsWs` is the character class of the JavaScript `\s` regex escape and of
  `String.prototype.trim`;
* `String.prototype.toLowerCase` is modelled by `Char.toLower` per character
  (the two agree on ASCII, which covers every lexicon word and every literal
  the source manipulates);
* the two anchored speaker-attribution regexes of `parseMessagesFromText` are
  embedded as `matchSpeaker` and `matchTimestamp` with the backtracking
  (greedy / lazy) semantics of JavaScript `RegExp.prototype.match` worked out
  for those two concrete patterns, including that `.` (`jsDot`) rejects the
  line terminators `\n`, `\r`, U+2028 and U+2029 while `\s` accepts them,
  and that `$` (no `m` flag) holds only at the true end of the input — so a
  line carrying a trailing carriage return matches neither pattern;
* `wordFreq` (a plain object used as a dictionary, empty-initialised) is
  modelled as an insertion-ordered association list (`buildFreq`), and
  `Object.entries` enumeration order — array-index keys first in ascending
  numeric order, then the remaining string keys in insertion order — is
  modelled by `entriesOrder`; prototype-chain lookups for exotic tokens such
  as "constructor" are not modelled;
* `Array.prototype.sort` (stable since ES2019) is modelled by a stable
  insertion sort;
* block confidences are modelled as rationals (`ℚ`), `undefined` as `none`;
  the falsy default `block.confidence || 0.8` maps `none` and `0` to `0.8`.
-/

/-- The character class of the JavaScript regex escape `\s` (also the set
trimmed by `String.prototype.trim`): ASCII whitespace, NBSP, the Unicode
space separators, the line separators and the BOM. -/
def jsWs (c : Char) : Bool :=
  c.toNat = 0x20 || c.toNat = 0x9 || c.toNat = 0xA || c.toNat = 0xB ||
  c.toNat = 0xC || c.toNat = 0xD || c.toNat = 0xA0 || c.toNat = 0x1680 ||
  (0x2000 ≤ c.toNat && c.toNat ≤ 0x200A) || c.toNat = 0x2028 ||
  c.toNat = 0x2029 || c.toNat = 0x202F || c.toNat = 0x205F ||
  c.toNat = 0x3000 || c.toNat = 0xFEFF

/-- The character class of the JavaScript regex metacharacter `.` (without
the `s` flag): any character except the four line terminators `\n`, `\r`,
U+2028 and U+2029.  Note that `\r`, U+2028 and U+2029 belong to `\s` but not
to `.`. -/
def jsDot (c : Char) : Bool :=
  !(c.toNat = 0xA || c.toNat = 0xD || c.toNat = 0x2028 || c.toNat = 0x2029)

/-- The character class of the JavaScript regex escape `\w`: `[A-Za-z0-9_]`. -/
def isWordChar (c : Char) : Bool :=
  c.isAlpha || c.isDigit || c = '_'

/-- `String.prototype.trim`: remove leading and trailing `jsWs` characters. -/
def jsTrim (l : List Char) : List Char :=
  ((l.dropWhile jsWs).reverse.dropWhile jsWs).reverse

/-- `String.prototype.includes pat`: `pat` occurs in the receiver as a
contiguous substring. -/
def hasSubstr (hay pat : List Char) : Bool :=
  match hay with
  | [] => pat.isEmpty
  | c :: t => List.isPrefixOf pat (c :: t) || hasSubstr t pat

/-- `text.split('\n')`: split at every newline, keeping empty pieces. -/
def splitNl : List Char → List (List Char)
  | [] => [[]]
  | c :: cs =>
    match splitNl cs with
    | [] => [[]]
    | r :: rs => if c = '\n' then [] :: r :: rs else (c :: r) :: rs

/-- Worker for `splitWsRuns`.  `some acc` means a token with content `acc`
is being accumulated; `none` means the scanner stands inside a whitespace
run whose token has already been emitted. -/
def splitWsGo : Option (List Char) → List Char → List (List Char)
  | none, [] => [[]]
  | some acc, [] => [acc]
  | none, c :: cs =>
    if jsWs c then splitWsGo none cs else splitWsGo (some [c]) cs
  | some acc, c :: cs =>
    if jsWs c then acc :: splitWsGo none cs
    else splitWsGo (some (acc ++ [c])) cs

/-- `text.split(/\s+/)`: split at every maximal nonempty run of whitespace;
a leading (resp. trailing) run yields a leading (resp. trailing) empty
piece, exactly as in JavaScript. -/
def splitWsRuns (s : List Char) : List (List Char) :=
  splitWsGo (some []) s

/-- Worker for `collapseWs`; the flag records whether the scanner stands
inside a whitespace run whose replacement space has already been emitted. -/
def collapseWsGo : Bool → List Char → List Char
  | _, [] => []
  | inWs, c :: cs =>
    if jsWs c then
      if inWs then collapseWsGo true cs else ' ' :: collapseWsGo true cs
    else c :: collapseWsGo false cs

/-- `text.replace(/\s+/g, ' ')`: collapse every maximal run of whitespace
into a single space. -/
def collapseWs (l : List Char) : List Char :=
  collapseWsGo false l

/-- First-occurrence deduplication: the order of a JavaScript `Set` (and of
object string keys) built by repeated insertion. -/
def dedupFO {α : Type} [DecidableEq α] : List α → List α
  | [] => []
  | x :: xs => x :: (dedupFO xs).filter (fun y => y ≠ x)

/-- `wordFreq[w] = (wordFreq[w] || 0) + 1` on an insertion-ordered
association list: increment the existing entry in place, or append a fresh
entry with count 1. -/
def bump {α : Type} [DecidableEq α] (w : α) : List (α × Nat) → List (α × Nat)
  | [] => [(w, 1)]
  | (k, n) :: rest =>
    if k = w then (k, n + 1) :: rest else (k, n) :: bump w rest

/-- The `wordFreq` dictionary after the `words.forEach` loop, as an
insertion-ordered association list. -/
def buildFreq {α : Type} [DecidableEq α] (ws : List α) : List (α × Nat) :=
  ws.foldl (fun m w => bump w m) []

/-- Numeric value of a digit string (used for the array-index key order). -/
def digitsToNat (l : List Char) : Nat :=
  l.foldl (fun n c => n * 10 + (c.toNat - 48)) 0

/-- Whether a string is a canonical JavaScript array-index key: a nonempty
all-digit string without a leading zero (except `"0"` itself) whose value is
below `2^32 - 1`.  Such keys are enumerated first by `Object.entries`. -/
def isArrayIndexKey : List Char → Bool
  | [] => false
  | c :: cs =>
    (c :: cs).all Char.isDigit && (!(c == '0') || cs.isEmpty) &&
    digitsToNat (c :: cs) < 4294967295

/-- Stable insertion (descending by count) used to model the stable
`Array.prototype.sort` with comparator `([,a],[,b]) => b - a`. -/
def insCountDesc {α : Type} (acc : List (α × Nat)) (x : α × Nat) :
    List (α × Nat) :=
  match acc with
  | [] => [x]
  | y :: ys => if y.2 < x.2 then x :: y :: ys else y :: insCountDesc ys x

/-- Stable sort, descending by count. -/
def sortCountDesc {α : Type} (l : List (α × Nat)) : List (α × Nat) :=
  l.foldl insCountDesc []

/-- Stable insertion, ascending by numeric key value (used for the
array-index segment of `Object.entries`). -/
def insKeyAsc (acc : List (List Char × Nat)) (x : List Char × Nat) :
    List (List Char × Nat) :=
  match acc with
  | [] => [x]
  | y :: ys =>
    if digitsToNat x.1 < digitsToNat y.1 then x :: y :: ys
    else y :: insKeyAsc ys x

/-- Stable sort, ascending by numeric key value. -/
def sortKeyAsc (l : List (List Char × Nat)) : List (List Char × Nat) :=
  l.foldl insKeyAsc []

/-- `Object.entries` enumeration order for a string-keyed object: array-index
keys first, in ascending numeric order, then the remaining keys in insertion
order. -/
def entriesOrder (m : List (List Char × Nat)) : List (List Char × Nat) :=
  sortKeyAsc (m.filter (fun e => isArrayIndexKey e.1)) ++
    m.filter (fun e => !isArrayIndexKey e.1)

/-- `\d{1,2}:\d{2}` matched with exactly one digit before the colon, at the
head of the list; returns the matched token and the remainder. -/
def timeTokOne : List Char → Option (List Char × List Char)
  | a :: ':' :: c :: d :: rest =>
    if a.isDigit && c.isDigit && d.isDigit then some ([a, ':', c, d], rest)
    else none
  | _ => none

/-- `\d{1,2}:\d{2}` matched at the head of the list with the greedy
(two-digits-first) semantics of the JavaScript quantifier; returns the
matched token and the remainder.  When the two-digit shape matches but a
digit test fails, the one-digit alternative requires a colon where a digit
stands, so falling back to `timeTokOne` is exactly the regex backtracking. -/
def timeTokAt (l : List Char) : Option (List Char × List Char) :=
  match l with
  | a :: b :: ':' :: c :: d :: rest =>
    if a.isDigit && b.isDigit && c.isDigit && d.isDigit then
      some ([a, b, ':', c, d], rest)
    else timeTokOne l
  | _ => timeTokOne l

/-- The trailing fragment `\s*(.+)$` of both speaker-attribution regexes,
matched against the remainder `tail` of the line (no `m` flag, so `$` holds
only at the very end of the input): returns the text captured by `(.+)`, or
`none` when the fragment cannot match.  The greedy `\s*` first takes the
maximal whitespace run; the greedy `(.+)` must then cover everything up to
the end, so each remaining character must match `.` (which excludes the
line terminators, although `\s` contains three of them).  When the
remainder after the run is empty — `tail` is all whitespace — the engine
backtracks `\s*` by one character and `(.+)` captures that single
whitespace character, provided it is not a line terminator. -/
def tailCapture (tail : List Char) : Option (List Char) :=
  let rest := tail.dropWhile jsWs
  if rest.isEmpty then
    match tail.reverse with
    | [] => none
    | c :: _ => if jsDot c then some [c] else none
  else if rest.all jsDot then some rest else none

/-- Per-message sentiment labels. -/
inductive Sentiment : Type
  | positive
  | negative
  | neutral
deriving DecidableEq, Repr

/-- Overall tone buckets. -/
inductive Tone : Type
  | friendly
  | neutral
  | tense
  | heated
deriving DecidableEq, Repr

/-- The `ToneAnalysis` record of `src/types`. -/
structure ToneAnalysis : Type where
  overallTone : Tone
  emotionalIntensity : Nat
  keyTopics : List (List Char)
  communicationPatterns : List (List Char)
deriving DecidableEq, Repr

/-- A parsed `Message` (the `timestamp: new Date()` field, wall-clock time,
is not modelled). -/
structure Message : Type where
  id : List Char
  sender : List Char
  content : List Char
  sentiment : Sentiment
deriving DecidableEq, Repr

namespace OCRService

/-- `positiveWords` of `analyzeTone` (`src/unnamed/part_002`, line 115). -/
def tonePositiveWords : List (List Char) :=
  ["love", "happy", "great", "good", "wonderful", "amazing"].map String.data

/-- `negativeWords` of `analyzeTone` (line 116). -/
def toneNegativeWords : List (List Char) :=
  ["hate", "angry", "bad", "terrible", "awful", "stupid"].map String.data

/-- `tensionWords` of `analyzeTone` (line 117). -/
def tensionWords : List (List Char) :=
  ["but", "however", "wrong", "never", "always"].map String.data

/-- `positiveWords` of `analyzeSentiment` (line 150). -/
def sentimentPositiveWords : List (List Char) :=
  ["love", "happy", "great", "good", "wonderful", "thanks"].map String.data

/-- `negativeWords` of `analyzeSentiment` (line 151). -/
def sentimentNegativeWords : List (List Char) :=
  ["hate", "angry", "bad", "terrible", "no", "never"].map String.data

/-- `words.filter(word => lowerText.includes(word)).length`: the number of
lexicon terms that occur in `lowerText` as a substring (each term counted
at most once). -/
def countOccurring (words : List (List Char)) (lowerText : List Char) : Nat :=
  (words.filter (fun w => hasSubstr lowerText w)).length

/-- `OCRService.analyzeSentiment` (`src/unnamed/part_002`, lines 148–159). -/
def analyzeSentiment (text : List Char) : Sentiment :=
  let lowerText := text.map Char.toLower
  let positiveScore := countOccurring sentimentPositiveWords lowerText
  let negativeScore := countOccurring sentimentNegativeWords lowerText
  if positiveScore > negativeScore then .positive
  else if negativeScore > positiveScore then .negative
  else .neutral

/-- Tokenisation pipeline of `extractKeyTopics` (lines 166–169): lower-case,
strip characters matching `[^\w\s]`, split on whitespace runs, keep tokens
of length above 3. -/
def topicTokens (text : List Char) : List (List Char) :=
  (splitWsRuns ((text.map Char.toLower).filter
      (fun c => isWordChar c || jsWs c))).filter
    (fun w => w.length > 3)

/-- `OCRService.extractKeyTopics` (lines 164–180): token frequencies via the
`wordFreq` object, `Object.entries`, stable sort descending by count, top 5,
tokens only. -/
def extractKeyTopics (text : List Char) : List (List Char) :=
  ((sortCountDesc (entriesOrder (buildFreq (topicTokens text)))).take 5).map
    Prod.fst

/-- `OCRService.identifyPatterns` (lines 185–199). -/
def identifyPatterns (text : List Char) : List (List Char) :=
  let lowerText := text.map Char.toLower
  (if hasSubstr lowerText "?".data then ["Questions present".data] else []) ++
  (if hasSubstr lowerText "!".data then ["Emotional expressions".data]
   else []) ++
  (if hasSubstr lowerText "sorry".data || hasSubstr lowerText "apologize".data
   then ["Apologies detected".data] else []) ++
  (if hasSubstr lowerText "but".data || hasSubstr lowerText "however".data
   then ["Contradictions present".data] else [])

/-- `OCRService.analyzeTone` (lines 111–143). -/
def analyzeTone (text : List Char) : ToneAnalysis :=
  let lowerText := text.map Char.toLower
  let positiveCount := countOccurring tonePositiveWords lowerText
  let negativeCount := countOccurring toneNegativeWords lowerText
  let tensionCount := countOccurring tensionWords lowerText
  let toneIntensity : Tone × Nat :=
    if negativeCount > positiveCount + 2 then (.heated, 8)
    else if tensionCount > 2 ∨ negativeCount > positiveCount then (.tense, 6)
    else if positiveCount > negativeCount + 1 then (.friendly, 3)
    else (.neutral, 5)
  { overallTone := toneIntensity.1
    emotionalIntensity := toneIntensity.2
    keyTopics := extractKeyTopics text
    communicationPatterns := identifyPatterns text }

/-- Pattern (a) of `parseMessagesFromText`, `/^([A-Za-z\s]+):\s*(.+)$/`
(line 65).  A match requires the maximal prefix of letters and whitespace
(the class can also match line terminators) to be nonempty and followed by
a colon; group 1 is that prefix, and group 2 is whatever `tailCapture`
yields for the rest of the line — in particular a line whose text after the
colon ends in a carriage return (ordinary CRLF input after `split('\n')`)
does not match, because `.` cannot cover the `\r` and `$` holds only at the
true end of the line. -/
def matchSpeaker (l : List Char) : Option (List Char × List Char) :=
  let name := l.takeWhile (fun c => c.isAlpha || jsWs c)
  match l.drop name.length with
  | ':' :: tail =>
    if name.isEmpty then none
    else
      match tailCapture tail with
      | some content => some (name, content)
      | none => none
  | _ => none

/-- Worker for `matchTimestamp`: `pre` is the prefix consumed so far by the
lazy `(.+?)`.  At each step the group grows by one character, which must
match `.`; once a line terminator is reached no longer prefix can match, so
the search fails outright.  A candidate split succeeds when the remainder
starts with a nonempty whitespace run (greedy `\s+`, which may contain line
terminators — a shorter run would put a whitespace character where a digit
must stand), then a `\d{1,2}:\d{2}` token, then a remainder accepted by the
`\s*(.+)$` fragment (`tailCapture`). -/
def matchTimestampGo (pre : List Char) : List Char → Option (List Char × List Char)
  | [] => none
  | c :: cs =>
    if jsDot c then
      let pre2 := pre ++ [c]
      let ws := cs.takeWhile jsWs
      let after := cs.drop ws.length
      if ws.isEmpty then matchTimestampGo pre2 cs
      else
        match timeTokAt after with
        | some (tok, rem) =>
          if (tailCapture rem).isSome then some (pre2, tok)
          else matchTimestampGo pre2 cs
        | none => matchTimestampGo pre2 cs
    else none

/-- Pattern (b) of `parseMessagesFromText`,
`/^(.+?)\s+(\d{1,2}:\d{2})\s*(.+)$/` (line 66).  Returns groups 1 and 2 —
note that group 2 is the timestamp token itself, which the source then uses
as the message content. -/
def matchTimestamp (l : List Char) : Option (List Char × List Char) :=
  matchTimestampGo [] l

/-- The body of the pattern loop of `parseMessagesFromText` (lines 69–79):
try pattern (a), then pattern (b), first match wins; both captured groups
are trimmed.  Without a match, the sender is the literal "Unknown" and the
content is the trimmed line. -/
def attributeLine (line : List Char) : List Char × List Char :=
  match matchSpeaker line with
  | some (n, c) => (jsTrim n, jsTrim c)
  | none =>
    match matchTimestamp line with
    | some (n, c) => (jsTrim n, jsTrim c)
    | none => ("Unknown".data, jsTrim line)

/-- `text.split('\n').filter(line => line.trim().length > 0)` (line 58). -/
def nonBlankLines (text : List Char) : List (List Char) :=
  (splitNl text).filter (fun l => (jsTrim l).length > 0)

/-- The `lines.forEach` loop of `parseMessagesFromText` (lines 62–90); `i`
is the index within the filtered line list, used for the `msg_${index}`
identifier.  A message is pushed only when the trimmed content is
nonempty. -/
def parseLines : Nat → List (List Char) → List Message
  | _, [] => []
  | i, l :: ls =>
    let sc := attributeLine l
    if sc.2.length > 0 then
      { id := "msg_".data ++ (toString i).data
        sender := sc.1
        content := sc.2
        sentiment := analyzeSentiment sc.2 } :: parseLines (i + 1) ls
    else parseLines (i + 1) ls

/-- `OCRService.parseMessagesFromText` (lines 57–93). -/
def parseMessagesFromText (text : List Char) : List Message :=
  parseLines 0 (nonBlankLines text)

/-- `OCRService.identifyParticipants` (lines 98–106): insert each sender
other than "Unknown" into a `Set` and list it in insertion order — that is,
first-occurrence deduplication of the non-"Unknown" senders. -/
def identifyParticipants (messages : List Message) : List (List Char) :=
  dedupFO ((messages.map Message.sender).filter (fun s => s ≠ "Unknown".data))

/-- `block.confidence || 0.8`: the falsy values of the model (`undefined`
and `0`) default to `0.8`. -/
def confOrDefault (c : Option ℚ) : ℚ :=
  match c with
  | none => 0.8
  | some v => if v = 0 then 0.8 else v

/-- `OCRService.calculateOverallConfidence` of the live variant
(`src/unnamed/part_002`, lines 204–212): the plain mean of the defaulted
block confidences, `0` for an empty block list, with no clamping. -/
def calculateOverallConfidence (blocks : List (Option ℚ)) : ℚ :=
  if blocks.length = 0 then 0
  else (blocks.foldl (fun sum b => sum + confOrDefault b) 0) / (blocks.length : ℚ)

end OCRService

namespace MockOCRService

/-- `\d{1,2}\/\d{1,2}` matched at the head of the list (either digit count
on each side; for a containment test the one- and two-digit shapes on the
right are interchangeable, and the left two-digit shape is checked
explicitly). -/
def slashAt (l : List Char) : Bool :=
  (match l with
   | a :: '/' :: b :: _ => a.isDigit && b.isDigit
   | _ => false) ||
  (match l with
   | a :: b :: '/' :: c :: _ => a.isDigit && b.isDigit && c.isDigit
   | _ => false)

/-- `\d{4}-\d{2}-\d{2}` matched at the head of the list. -/
def dateAt (l : List Char) : Bool :=
  match l with
  | a :: b :: c :: d :: '-' :: e :: f :: '-' :: g :: h :: _ =>
    a.isDigit && b.isDigit && c.isDigit && d.isDigit && e.isDigit &&
    f.isDigit && g.isDigit && h.isDigit
  | _ => false

/-- One of the three alternatives of the `timePattern` regex matched at the
head of the list. -/
def tsAt (l : List Char) : Bool :=
  (timeTokAt l).isSome || slashAt l || dateAt l

/-- `timePattern.test(line)` for
`/\d{1,2}:\d{2}|\d{1,2}\/\d{1,2}|\d{4}-\d{2}-\d{2}/`
(`src/src/services/OCRService.ts`, line 160): the regex is unanchored, so
the test succeeds exactly when some alternative matches at some position. -/
def tsTest : List Char → Bool
  | [] => false
  | c :: cs => tsAt (c :: cs) || tsTest cs

/-- `namePattern` `/^([A-Za-z\s]+)[:]/` (line 167) matched against a line:
group 1 is the maximal nonempty prefix of letters and whitespace, which must
be followed by a colon. -/
def nameAt (l : List Char) : Option (List Char) :=
  let name := l.takeWhile (fun c => c.isAlpha || jsWs c)
  match l.drop name.length with
  | ':' :: _ => if name.isEmpty then none else some name
  | _ => none

/-- The `for (const line of lines)` loop of `identifyConversationStructure`
(lines 158–191) together with the final push of the pending message: the
state is the current speaker (assigned but never read downstream) and the
current message accumulator. -/
def icsGo : List (List Char) → List Char → List Char → List (List Char)
  | [], _, currentMessage =>
    if (jsTrim currentMessage).isEmpty then [] else [jsTrim currentMessage]
  | line :: rest, currentSpeaker, currentMessage =>
    if tsTest line then icsGo rest currentSpeaker currentMessage
    else
      match nameAt line with
      | some n =>
        (if (jsTrim currentMessage).isEmpty then [] else [jsTrim currentMessage]) ++
          icsGo rest (jsTrim n) line
      | none =>
        if currentMessage.isEmpty then icsGo rest currentSpeaker line
        else icsGo rest currentSpeaker (currentMessage ++ ' ' :: line)

/-- `OCRService.identifyConversationStructure` of the mock variant
(lines 153–194). -/
def identifyConversationStructure (lines : List (List Char)) : List (List Char) :=
  let structuredLines := icsGo lines [] []
  if structuredLines.length > 0 then structuredLines else lines

/-- The `processedText` cleanup chain of `processConversationText`
(lines 126–134): collapse whitespace runs, strip pipes, apply the `0 → O`
and `1 → I` "misrecognition fixes", then trim. -/
def ocrFixes (rawText : List Char) : List Char :=
  jsTrim ((((collapseWs rawText).map
      (fun c => if c = '|' then ' ' else c)).map
      (fun c => if c = '0' then 'O' else c)).map
      (fun c => if c = '1' then 'I' else c))

/-- The `cleanedLines` stage of `processConversationText` (lines 137–142):
re-split on newlines, trim each line, drop empty lines, then drop lines of
length at most 2. -/
def cleanedLinesOf (processedText : List Char) : List (List Char) :=
  (((splitNl processedText).map jsTrim).filter (fun l => l.length > 0)).filter
    (fun l => l.length > 2)

/-- `OCRService.processConversationText` of the mock variant
(lines 120–148): the cleanup chain, the line stage, the structured pass, and
the final re-join with newlines. -/
def processConversationText (rawText : List Char) : List Char :=
  if (jsTrim rawText).length = 0 then []
  else
    List.intercalate "\n".data
      (identifyConversationStructure (cleanedLinesOf (ocrFixes rawText)))

/-- `OCRService.calculateOverallConfidence` of the mock variant
(lines 262–270): as the live variant, but the mean is capped at `1`
(`Math.min(·, 1.0)`) — there is no lower clamp. -/
def calculateOverallConfidence (blocks : List (Option ℚ)) : ℚ :=
  if blocks.length = 0 then 0
  else
    min ((blocks.foldl (fun sum b => sum + OCRService.confOrDefault b) 0) /
      (blocks.length : ℚ)) 1

/-- The merge loop of `identifyConversationStructure` with the timestamp
check removed: the reference against which the drop behaviour of `icsGo` is
stated. -/
def icsNoTsGo : List (List Char) → List Char → List Char → List (List Char)
  | [], _, currentMessage =>
    if (jsTrim currentMessage).isEmpty then [] else [jsTrim currentMessage]
  | line :: rest, currentSpeaker, currentMessage =>
    match nameAt line with
    | some n =>
      (if (jsTrim currentMessage).isEmpty then [] else [jsTrim currentMessage]) ++
        icsNoTsGo rest (jsTrim n) line
    | none =>
      if currentMessage.isEmpty then icsNoTsGo rest currentSpeaker line
      else icsNoTsGo rest currentSpeaker (currentMessage ++ ' ' :: line)

end MockOCRService

/-- Stated from the claim (C1): the overall-tone decision rule — strict
comparisons, evaluated in this exact priority order, first match wins. -/
def toneRuleSpec (positiveCount negativeCount tensionCount : Nat) : Tone × Nat :=
  if negativeCount > positiveCount + 2 then (.heated, 8)
  else if tensionCount > 2 ∨ negativeCount > positiveCount then (.tense, 6)
  else if positiveCount > negativeCount + 1 then (.friendly, 3)
  else (.neutral, 5)

/-- Stated from the claims (C1, C3): the number of lexicon terms occurring
in the lower-cased text (substring containment, not whole-word; each term
counted at most once). -/
def termsOccurringSpec (lex : List (List Char)) (text : List Char) : Nat :=
  (lex.filter (fun w => hasSubstr (text.map Char.toLower) w)).length

/-- Stated from the claim (C3): positive iff the positive count strictly
exceeds the negative count, negative iff the converse, neutral otherwise. -/
def sentimentRuleSpec (positiveCount negativeCount : Nat) : Sentiment :=
  if positiveCount > negativeCount then .positive
  else if negativeCount > positiveCount then .negative
  else .neutral

/-- Stated from the claim (C4): the reference topic-extraction procedure —
count token frequencies, sort descending by frequency with ties broken by
first-occurrence order (a stable sort over insertion order), take the top 5,
return the tokens only. -/
def keyTopicsSpec (text : List Char) : List (List Char) :=
  let toks := OCRService.topicTokens text
  ((sortCountDesc ((dedupFO toks).map (fun w => (w, toks.count w)))).take
      5).map Prod.fst

/-- The C4 reference procedure with the tie order amended to the
`Object.entries` enumeration order: all-digit tokens that are canonical
array-index keys come first, in ascending numeric order, and the remaining
tokens keep their first-occurrence order. -/
def keyTopicsSpecAmended (text : List Char) : List (List Char) :=
  let toks := OCRService.topicTokens text
  ((sortCountDesc (entriesOrder
      ((dedupFO toks).map (fun w => (w, toks.count w))))).take 5).map Prod.fst

/-- Clamp a rational to the interval `[0, 1]`. -/
def clamp01 (q : ℚ) : ℚ := min (max q 0) 1

/-- Stated from the claim (C8): the confidence aggregate as the mean of the
per-block confidences clamped to `[0, 1]`, and `0` when the block list is
empty. -/
def confidenceAggregateSpec (blocks : List (Option ℚ)) : ℚ :=
  if blocks.length = 0 then 0
  else clamp01 ((blocks.map OCRService.confOrDefault).sum / (blocks.length : ℚ))

theorem mem_dedupFO {α : Type} [DecidableEq α] (a : α) (l : List α) :
    a ∈ dedupFO l ↔ a ∈ l := by
  induction l with
  | nil => simp [dedupFO]
  | cons x xs ih =>
    simp only [dedupFO, List.mem_cons, List.mem_filter, ih, decide_eq_true_eq]
    by_cases h : a = x <;> simp [h]

theorem nodup_dedupFO {α : Type} [DecidableEq α] (l : List α) :
    (dedupFO l).Nodup := by
  induction l with
  | nil => simp [dedupFO]
  | cons x xs ih =>
    rw [dedupFO, List.nodup_cons]
    refine ⟨?_, ih.filter _⟩
    intro h
    rw [List.mem_filter] at h
    simp at h

/-- C7.  The participant list contains no duplicates and never contains the
literal string "Unknown", for every message list produced by the parsing
stage on any raw text. -/
theorem claim_C7_participants_invariant (text : List Char) :
    (OCRService.identifyParticipants
        (OCRService.parseMessagesFromText text)).Nodup ∧
      "Unknown".data ∉
        OCRService.identifyParticipants
          (OCRService.parseMessagesFromText text) := by
  constructor
  · exact nodup_dedupFO _
  · intro h
    have h2 := (mem_dedupFO _ _).1 h
    rw [List.mem_filter] at h2
    simp at h2

/-- C1.  The overall tone classification lower-cases the text, counts the
lexicon terms occurring in it, and applies the fixed four-rule decision
table with strict comparisons, in priority order, first match wins. -/
theorem claim_C1_analyzeTone_decision_rule (text : List Char) :
    ((OCRService.analyzeTone text).overallTone,
        (OCRService.analyzeTone text).emotionalIntensity) =
      toneRuleSpec (termsOccurringSpec OCRService.tonePositiveWords text)
        (termsOccurringSpec OCRService.toneNegativeWords text)
        (termsOccurringSpec OCRService.tensionWords text) := by
  simp only [OCRService.analyzeTone, toneRuleSpec, termsOccurringSpec,
    OCRService.countOccurring]

/-- C3.  Per-message sentiment lower-cases the content, counts the positive
and negative lexicon terms occurring in it, and classifies by strict
comparison of the two counts, with ties resolving to neutral. -/
theorem claim_C3_analyzeSentiment_rule (content : List Char) :
    OCRService.analyzeSentiment content =
      sentimentRuleSpec
        (termsOccurringSpec OCRService.sentimentPositiveWords content)
        (termsOccurringSpec OCRService.sentimentNegativeWords content) := by
  simp only [OCRService.analyzeSentiment, sentimentRuleSpec,
    termsOccurringSpec, OCRService.countOccurring]

/-- C10.  Every tone analysis draws its (tone, intensity) pair from the four
fixed pairs, so the intensity is determined by the tone bucket. -/
theorem claim_C10_tone_intensity_pairs (text : List Char) :
    ((OCRService.analyzeTone text).overallTone = Tone.heated ∧
        (OCRService.analyzeTone text).emotionalIntensity = 8) ∨
      ((OCRService.analyzeTone text).overallTone = Tone.tense ∧
        (OCRService.analyzeTone text).emotionalIntensity = 6) ∨
      ((OCRService.analyzeTone text).overallTone = Tone.friendly ∧
        (OCRService.analyzeTone text).emotionalIntensity = 3) ∨
      ((OCRService.analyzeTone text).overallTone = Tone.neutral ∧
        (OCRService.analyzeTone text).emotionalIntensity = 5) := by
  simp only [OCRService.analyzeTone]
  split_ifs <;> simp

theorem foldl_add_confOrDefault (blocks : List (Option ℚ)) (a : ℚ) :
    blocks.foldl (fun sum b => sum + OCRService.confOrDefault b) a =
      a + (blocks.map OCRService.confOrDefault).sum := by
  induction blocks generalizing a with
  | nil => simp
  | cons b bs ih =>
    simp only [List.foldl_cons, List.map_cons, List.sum_cons, ih]
    ring

/-- C8 counterexample.  Neither variant computes the clamped mean: the live
variant returns the unclamped mean (2 instead of 1 on a single block of
confidence 2), and the mock variant has no lower clamp (-1 instead of 0 on a
single block of confidence -1). -/
theorem claim_C8_counterexample :
    OCRService.calculateOverallConfidence [some 2] = 2 ∧
      confidenceAggregateSpec [some 2] = 1 ∧
      OCRService.calculateOverallConfidence [some 2] ≠
        confidenceAggregateSpec [some 2] ∧
      MockOCRService.calculateOverallConfidence [some (-1)] = -1 ∧
      confidenceAggregateSpec [some (-1)] = 0 ∧
      MockOCRService.calculateOverallConfidence [some (-1)] ≠
        confidenceAggregateSpec [some (-1)] := by
  refine ⟨?_, ?_, ?_, ?_, ?_, ?_⟩ <;>
    norm_num [OCRService.calculateOverallConfidence,
      MockOCRService.calculateOverallConfidence, confidenceAggregateSpec,
      OCRService.confOrDefault, clamp01]

/-- C8 as amended.  The aggregate equals the mean of the defaulted per-block
confidences and 0 for an empty block list; the mock variant additionally
caps the mean at 1, and neither variant clamps below 0. -/
theorem claim_C8_amended_confidence (blocks : List (Option ℚ)) :
    OCRService.calculateOverallConfidence blocks =
      (if blocks.length = 0 then 0
       else (blocks.map OCRService.confOrDefault).sum / (blocks.length : ℚ)) ∧
    MockOCRService.calculateOverallConfidence blocks =
      (if blocks.length = 0 then 0
       else
         min ((blocks.map OCRService.confOrDefault).sum / (blocks.length : ℚ))
           1) := by
  rw [OCRService.calculateOverallConfidence,
    MockOCRService.calculateOverallConfidence, foldl_add_confOrDefault]
  simp

/-- C2 counterexample.  The non-blank line "hello 3:45 world" does not match
the explicit speaker pattern (a), yet its Message has sender "hello" — the
fallback timestamp pattern (b) matched and captured the text before the
timestamp as the sender (and the timestamp token as the content), so the
sender is not the literal "Unknown" and the content is not the full trimmed
line. -/
theorem claim_C2_counterexample :
    OCRService.matchSpeaker "hello 3:45 world".data = none ∧
      OCRService.parseMessagesFromText "hello 3:45 world".data =
        [{ id := "msg_0".data, sender := "hello".data, content := "3:45".data,
           sentiment := Sentiment.neutral }] ∧
      "hello".data ≠ "Unknown".data :=
  ⟨by decide, by decide, by decide⟩

theorem parseLines_unknown_mem (ls : List (List Char)) (i : Nat)
    (l : List Char) (hl : l ∈ ls) (hne : (jsTrim l).length > 0)
    (ha : OCRService.matchSpeaker l = none)
    (hb : OCRService.matchTimestamp l = none) :
    ∃ m ∈ OCRService.parseLines i ls,
      m.sender = "Unknown".data ∧ m.content = jsTrim l := by
  revert hl
  induction ls generalizing i with
  | nil => intro hl; cases hl
  | cons x xs ih =>
    intro hl
    rcases List.mem_cons.1 hl with rfl | hmem
    · have hattr : OCRService.attributeLine l = ("Unknown".data, jsTrim l) := by
        rw [OCRService.attributeLine, ha, hb]
      refine ⟨⟨"msg_".data ++ (toString i).data, "Unknown".data, jsTrim l,
        OCRService.analyzeSentiment (jsTrim l)⟩, ?_, rfl, rfl⟩
      simp only [OCRService.parseLines, hattr]
      rw [if_pos hne]
      exact List.mem_cons_self _ _
    · obtain ⟨m, hm, hs, hc⟩ := ih (i + 1) hmem
      refine ⟨m, ?_, hs, hc⟩
      simp only [OCRService.parseLines]
      split
      · exact List.mem_cons_of_mem _ hm
      · exact hm

/-- C2 as amended.  For every non-blank input line matching neither the
explicit speaker pattern (a) nor the fallback timestamp pattern (b), the
emitted Message has sender "Unknown" and content equal to the full trimmed
line. -/
theorem claim_C2_amended_unknown_sender (text l : List Char)
    (hl : l ∈ OCRService.nonBlankLines text)
    (ha : OCRService.matchSpeaker l = none)
    (hb : OCRService.matchTimestamp l = none) :
    ∃ m ∈ OCRService.parseMessagesFromText text,
      m.sender = "Unknown".data ∧ m.content = jsTrim l := by
  have hne : (jsTrim l).length > 0 :=
    of_decide_eq_true (List.mem_filter.1 hl).2
  rw [OCRService.parseMessagesFromText]
  exact parseLines_unknown_mem _ 0 l hl hne ha hb

/-- C2 witness: a concrete line matching neither pattern. -/
theorem claim_C2_amended_witness :
    ∃ m ∈ OCRService.parseMessagesFromText "@@@@".data,
      m.sender = "Unknown".data ∧ m.content = jsTrim "@@@@".data :=
  claim_C2_amended_unknown_sender "@@@@".data "@@@@".data (by decide)
    (by decide) (by decide)

/-- C6 counterexample.  A cleaned line that merely contains a timestamp
token as a substring — it is not a whole-line timestamp — is dropped by the
structured pass. -/
theorem claim_C6_counterexample :
    MockOCRService.tsTest "Note: remember the time 3:45 tomorrow".data = true ∧
      MockOCRService.identifyConversationStructure
          (["Alice: hi", "Note: remember the time 3:45 tomorrow",
            "Bob: yo"].map String.data) =
        ["Alice: hi", "Bob: yo"].map String.data ∧
      "Note: remember the time 3:45 tomorrow".data ∉
        MockOCRService.identifyConversationStructure
          (["Alice: hi", "Note: remember the time 3:45 tomorrow",
            "Bob: yo"].map String.data) :=
  ⟨by decide, by decide, by decide⟩

theorem icsGo_eq_noTs_filter (lines : List (List Char)) :
    ∀ sp cm, MockOCRService.icsGo lines sp cm =
      MockOCRService.icsNoTsGo
        (lines.filter (fun l => !MockOCRService.tsTest l)) sp cm := by
  induction lines with
  | nil => intro sp cm; rfl
  | cons l ls ih =>
    intro sp cm
    cases h : MockOCRService.tsTest l with
    | true => simp [MockOCRService.icsGo, h, List.filter_cons, ih]
    | false =>
      cases hn : MockOCRService.nameAt l with
      | some n =>
        simp [MockOCRService.icsGo, MockOCRService.icsNoTsGo, h, hn,
          List.filter_cons, ih]
      | none =>
        by_cases hc : cm.isEmpty <;>
          simp [MockOCRService.icsGo, MockOCRService.icsNoTsGo, h, hn, hc,
            List.filter_cons, ih]

/-- C6 as amended.  The structured pass drops a cleaned line whenever the
timestamp pattern matches anywhere in the line (an unanchored substring
test, not a whole-line match): the merge behaves exactly as if every such
line had been deleted beforehand, except that when the merge produces
nothing the original line list — timestamp lines included — is returned. -/
theorem claim_C6_amended_substring_drop (lines : List (List Char)) :
    MockOCRService.identifyConversationStructure lines =
      (if 0 < (MockOCRService.icsNoTsGo
            (lines.filter (fun l => !MockOCRService.tsTest l)) [] []).length
       then
         MockOCRService.icsNoTsGo
           (lines.filter (fun l => !MockOCRService.tsTest l)) [] []
       else lines) := by
  simp only [MockOCRService.identifyConversationStructure,
    icsGo_eq_noTs_filter]

theorem jsTrim_nil : jsTrim [] = [] := rfl

theorem mem_of_mem_jsTrim {c : Char} {l : List Char} (h : c ∈ jsTrim l) :
    c ∈ l := by
  rw [jsTrim, List.mem_reverse] at h
  have h2 := List.dropWhile_subset _ h
  rw [List.mem_reverse] at h2
  exact List.dropWhile_subset _ h2

theorem not_newline_collapseWsGo (b : Bool) (l : List Char) :
    '\n' ∉ collapseWsGo b l := by
  induction l generalizing b with
  | nil => simp [collapseWsGo]
  | cons c cs ih =>
    by_cases h : jsWs c
    · by_cases hb : b <;> simp [collapseWsGo, h, hb, ih]
    · have hcn : ('\n' : Char) ≠ c := by
        rintro rfl
        exact absurd (by decide : jsWs '\n' = true) (by simpa using h)
      simp [collapseWsGo, h, ih, hcn]

theorem no_newline_map (f : Char → Char) (hf : ∀ c, f c = '\n' → c = '\n')
    (l : List Char) (hl : '\n' ∉ l) : '\n' ∉ l.map f := by
  intro hm
  rcases List.mem_map.1 hm with ⟨c, hc, hfc⟩
  exact hl (hf c hfc ▸ hc)

theorem not_newline_ocrFixes (rawText : List Char) :
    '\n' ∉ MockOCRService.ocrFixes rawText := by
  have base : '\n' ∉ collapseWs rawText := by
    rw [collapseWs]
    exact not_newline_collapseWsGo false rawText
  have m1 := no_newline_map (fun c => if c = '|' then ' ' else c)
    (by
      intro c h
      have h2 : (if c = '|' then ' ' else c) = '\n' := h
      by_cases hc : c = '|'
      · rw [if_pos hc] at h2
        exact absurd h2 (by decide)
      · rwa [if_neg hc] at h2)
    _ base
  have m2 := no_newline_map (fun c => if c = '0' then 'O' else c)
    (by
      intro c h
      have h2 : (if c = '0' then 'O' else c) = '\n' := h
      by_cases hc : c = '0'
      · rw [if_pos hc] at h2
        exact absurd h2 (by decide)
      · rwa [if_neg hc] at h2)
    _ m1
  have m3 := no_newline_map (fun c => if c = '1' then 'I' else c)
    (by
      intro c h
      have h2 : (if c = '1' then 'I' else c) = '\n' := h
      by_cases hc : c = '1'
      · rw [if_pos hc] at h2
        exact absurd h2 (by decide)
      · rwa [if_neg hc] at h2)
    _ m2
  rw [MockOCRService.ocrFixes]
  intro h
  exact m3 (mem_of_mem_jsTrim h)

theorem splitNl_no_newline (l : List Char) (h : '\n' ∉ l) : splitNl l = [l] := by
  induction l with
  | nil => rfl
  | cons c cs ih =>
    have hc : c ≠ '\n' := by
      rintro rfl
      exact h (List.mem_cons_self _ _)
    have hcs : '\n' ∉ cs := fun hm => h (List.mem_cons_of_mem _ hm)
    simp [splitNl, ih hcs, hc]

theorem intercalate_single (sep x : List Char) :
    List.intercalate sep [x] = x := by
  simp [List.intercalate]

/-- On a single cleaned line, the structured pass returns either the line or
its trim. -/
theorem ics_singleton (x : List Char) :
    MockOCRService.identifyConversationStructure [x] = [x] ∨
      MockOCRService.identifyConversationStructure [x] = [jsTrim x] := by
  by_cases hts : MockOCRService.tsTest x
  · left
    simp [MockOCRService.identifyConversationStructure, MockOCRService.icsGo,
      hts, jsTrim_nil]
  · cases hn : MockOCRService.nameAt x with
    | some n =>
      by_cases he : (jsTrim x).isEmpty
      · left
        simp [MockOCRService.identifyConversationStructure,
          MockOCRService.icsGo, hts, hn, he, jsTrim_nil]
      · right
        simp [MockOCRService.identifyConversationStructure,
          MockOCRService.icsGo, hts, hn, he, jsTrim_nil]
    | none =>
      by_cases he : (jsTrim x).isEmpty
      · left
        simp [MockOCRService.identifyConversationStructure,
          MockOCRService.icsGo, hts, hn, he, jsTrim_nil]
      · right
        simp [MockOCRService.identifyConversationStructure,
          MockOCRService.icsGo, hts, hn, he, jsTrim_nil]

theorem ics_join_no_newline (lines : List (List Char))
    (hlen : lines.length ≤ 1) (hnl : ∀ x ∈ lines, '\n' ∉ x) :
    '\n' ∉ List.intercalate "\n".data
      (MockOCRService.identifyConversationStructure lines) := by
  cases lines with
  | nil => decide
  | cons x xs =>
    cases xs with
    | cons y ys => simp at hlen
    | nil =>
      have hx : '\n' ∉ x := hnl x (List.mem_cons_self _ _)
      rcases ics_singleton x with h | h <;> rw [h, intercalate_single]
      · exact hx
      · exact fun hm => hx (mem_of_mem_jsTrim hm)

/-- C9.  The §4.7 cleanup returns a string with no newline character: the
initial whitespace collapse removes every line break, so the later re-split
on newlines sees at most one line and the joined result cannot contain a
newline. -/
theorem claim_C9_no_newline (rawText : List Char) :
    '\n' ∉ MockOCRService.processConversationText rawText := by
  rw [MockOCRService.processConversationText]
  split_ifs with h
  · simp
  · have hnl := not_newline_ocrFixes rawText
    apply ics_join_no_newline
    · rw [MockOCRService.cleanedLinesOf, splitNl_no_newline _ hnl]
      refine le_trans (List.length_filter_le _ _) ?_
      refine le_trans (List.length_filter_le _ _) ?_
      simp
    · intro x hx
      rw [MockOCRService.cleanedLinesOf, splitNl_no_newline _ hnl] at hx
      have hx2 := List.mem_of_mem_filter (List.mem_of_mem_filter hx)
      rcases List.mem_map.1 hx2 with ⟨o, ho, rfl⟩
      rcases List.mem_singleton.1 ho with rfl
      exact fun hm => hnl (mem_of_mem_jsTrim hm)

theorem splitNl_ne_nil (l : List Char) : splitNl l ≠ [] := by
  cases l with
  | nil => simp [splitNl]
  | cons c cs =>
    cases h : splitNl cs with
    | nil => simp [splitNl, h]
    | cons r rs =>
      simp only [splitNl, h]
      split <;> simp

theorem mem_of_mem_splitNl {l' l : List Char} (hl : l' ∈ splitNl l)
    {c : Char} (hc : c ∈ l') : c ∈ l := by
  induction l generalizing l' with
  | nil =>
    simp [splitNl] at hl
    subst hl
    cases hc
  | cons x xs ih =>
    cases hs : splitNl xs with
    | nil => exact absurd hs (splitNl_ne_nil xs)
    | cons r rs =>
      simp only [splitNl, hs] at hl
      by_cases hx : x = '\n'
      · rw [if_pos hx] at hl
        rcases List.mem_cons.1 hl with rfl | hl2
        · cases hc
        · exact List.mem_cons_of_mem _ (ih (hs ▸ hl2) hc)
      · rw [if_neg hx] at hl
        rcases List.mem_cons.1 hl with rfl | hl2
        · rcases List.mem_cons.1 hc with rfl | hc2
          · exact List.mem_cons_self _ _
          · exact List.mem_cons_of_mem _
              (ih (hs ▸ List.mem_cons_self r rs) hc2)
        · exact List.mem_cons_of_mem _
            (ih (hs ▸ List.mem_cons_of_mem r hl2) hc)

theorem jsTrim_all_ws {l : List Char} (h : ∀ c ∈ l, jsWs c = true) :
    jsTrim l = [] := by
  have h1 : l.dropWhile jsWs = [] := by
    rw [List.dropWhile_eq_nil_iff]
    exact h
  rw [jsTrim, h1]
  simp

theorem nonBlankLines_all_ws (text : List Char)
    (h : ∀ c ∈ text, jsWs c = true) : OCRService.nonBlankLines text = [] := by
  rw [OCRService.nonBlankLines, List.filter_eq_nil_iff]
  intro l hl
  have : jsTrim l = [] :=
    jsTrim_all_ws (fun c hc => h c (mem_of_mem_splitNl hl hc))
  simp [this]

theorem hasSubstr_mem {hay pat : List Char} (h : hasSubstr hay pat = true) :
    ∀ c ∈ pat, c ∈ hay := by
  induction hay with
  | nil =>
    intro c hc
    rw [hasSubstr, List.isEmpty_iff] at h
    subst h
    cases hc
  | cons x t ih =>
    intro c hc
    rw [hasSubstr, Bool.or_eq_true] at h
    rcases h with h | h
    · have hp := List.isPrefixOf_iff_prefix.1 h
      exact hp.subset hc
    · exact List.mem_cons_of_mem _ (ih h c hc)

theorem toLower_of_jsWs {c : Char} (h : jsWs c = true) : c.toLower = c := by
  simp only [jsWs, Bool.or_eq_true, Bool.and_eq_true, decide_eq_true_eq] at h
  rw [Char.toLower]
  split
  · exfalso
    rename_i hc
    omega
  · rfl

theorem map_toLower_all_ws {text : List Char}
    (h : ∀ c ∈ text, jsWs c = true) :
    ∀ c ∈ text.map Char.toLower, jsWs c = true := by
  intro c hc
  rcases List.mem_map.1 hc with ⟨d, hd, rfl⟩
  rw [toLower_of_jsWs (h d hd)]
  exact h d hd

theorem countOccurring_all_ws (lex : List (List Char))
    (hlex : ∀ w ∈ lex, ∃ c ∈ w, jsWs c = false) (lower : List Char)
    (hws : ∀ c ∈ lower, jsWs c = true) :
    OCRService.countOccurring lex lower = 0 := by
  rw [OCRService.countOccurring, List.length_eq_zero, List.filter_eq_nil_iff]
  intro w hw habs
  rcases hlex w hw with ⟨c, hcw, hcf⟩
  have := hws c (hasSubstr_mem (by simpa using habs) c hcw)
  rw [this] at hcf
  cases hcf

theorem splitWsGo_none_all_ws (s : List Char)
    (h : ∀ c ∈ s, jsWs c = true) : splitWsGo none s = [[]] := by
  induction s with
  | nil => rfl
  | cons c cs ih =>
    rw [splitWsGo, if_pos (h c (List.mem_cons_self _ _))]
    exact ih fun d hd => h d (List.mem_cons_of_mem _ hd)

theorem splitWsRuns_all_ws (s : List Char) (h : ∀ c ∈ s, jsWs c = true) :
    splitWsRuns s = [[]] ∨ splitWsRuns s = [[], []] := by
  cases s with
  | nil => left; rfl
  | cons c cs =>
    right
    rw [splitWsRuns, splitWsGo, if_pos (h c (List.mem_cons_self _ _)),
      splitWsGo_none_all_ws cs fun d hd => h d (List.mem_cons_of_mem _ hd)]

theorem topicTokens_all_ws (text : List Char)
    (h : ∀ c ∈ text, jsWs c = true) : OCRService.topicTokens text = [] := by
  have hf : ∀ c ∈ (text.map Char.toLower).filter
      (fun c => isWordChar c || jsWs c), jsWs c = true :=
    fun c hc => map_toLower_all_ws h c (List.mem_of_mem_filter hc)
  rw [OCRService.topicTokens]
  rcases splitWsRuns_all_ws _ hf with h1 | h1 <;> rw [h1] <;> rfl

theorem extractKeyTopics_all_ws (text : List Char)
    (h : ∀ c ∈ text, jsWs c = true) :
    OCRService.extractKeyTopics text = [] := by
  rw [OCRService.extractKeyTopics, topicTokens_all_ws text h]
  rfl

/-- C5.  On empty or whitespace-only raw text the analyzer yields an empty
message list, an empty participant set, overall tone neutral with intensity
5, and no key topics.  (In this embedding every stage is total by
construction, so "never raises" holds for every input.) -/
theorem claim_C5_blank_input (text : List Char) (h : text.all jsWs = true) :
    OCRService.parseMessagesFromText text = [] ∧
      OCRService.identifyParticipants
        (OCRService.parseMessagesFromText text) = [] ∧
      (OCRService.analyzeTone text).overallTone = Tone.neutral ∧
      (OCRService.analyzeTone text).emotionalIntensity = 5 ∧
      (OCRService.analyzeTone text).keyTopics = [] := by
  have hws : ∀ c ∈ text, jsWs c = true := List.all_eq_true.1 h
  have hparse : OCRService.parseMessagesFromText text = [] := by
    rw [OCRService.parseMessagesFromText, nonBlankLines_all_ws text hws]
    rfl
  have hlower := map_toLower_all_ws hws
  have hp : OCRService.countOccurring OCRService.tonePositiveWords
      (text.map Char.toLower) = 0 :=
    countOccurring_all_ws _ (by decide) _ hlower
  have hn : OCRService.countOccurring OCRService.toneNegativeWords
      (text.map Char.toLower) = 0 :=
    countOccurring_all_ws _ (by decide) _ hlower
  have ht : OCRService.countOccurring OCRService.tensionWords
      (text.map Char.toLower) = 0 :=
    countOccurring_all_ws _ (by decide) _ hlower
  refine ⟨hparse, by rw [hparse]; rfl, ?_, ?_, ?_⟩
  · simp [OCRService.analyzeTone, hp, hn, ht]
  · simp [OCRService.analyzeTone, hp, hn, ht]
  · simp [OCRService.analyzeTone, extractKeyTopics_all_ws text hws]

/-- C5 witness: a concrete whitespace-only input. -/
theorem claim_C5_blank_input_witness :
    (" \n ".data.all jsWs = true) ∧
      (OCRService.parseMessagesFromText " \n ".data = [] ∧
        OCRService.identifyParticipants
          (OCRService.parseMessagesFromText " \n ".data) = [] ∧
        (OCRService.analyzeTone " \n ".data).overallTone = Tone.neutral ∧
        (OCRService.analyzeTone " \n ".data).emotionalIntensity = 5 ∧
        (OCRService.analyzeTone " \n ".data).keyTopics = []) :=
  ⟨by decide, claim_C5_blank_input " \n ".data (by decide)⟩

theorem dedupFO_append_singleton {α : Type} [DecidableEq α] (l : List α)
    (w : α) :
    dedupFO (l ++ [w]) =
      if w ∈ l then dedupFO l else dedupFO l ++ [w] := by
  induction l with
  | nil => simp [dedupFO]
  | cons x xs ih =>
    rw [List.cons_append]
    simp only [dedupFO]
    rw [ih]
    by_cases hw : w ∈ xs
    · rw [if_pos hw, if_pos (List.mem_cons_of_mem x hw)]
    · by_cases hx : w = x
      · subst hx
        rw [if_neg hw, if_pos (List.mem_cons_self w xs), List.filter_append]
        simp
      · rw [if_neg hw, if_neg (by simp [hx, hw]), List.filter_append]
        simp [hx]

theorem bump_map_mem {α : Type} [DecidableEq α] (f : α → Nat)
    {us : List α} {w : α} (hn : us.Nodup) (hw : w ∈ us) :
    bump w (us.map fun u => (u, f u)) =
      us.map (fun u => (u, if u = w then f u + 1 else f u)) := by
  induction us with
  | nil => cases hw
  | cons x xs ih =>
    simp only [List.map_cons, bump]
    by_cases hx : x = w
    · subst hx
      rw [if_pos rfl, if_pos rfl]
      have hnot : x ∉ xs := (List.nodup_cons.1 hn).1
      have : xs.map (fun u => (u, if u = x then f u + 1 else f u)) =
          xs.map (fun u => (u, f u)) := by
        apply List.map_congr_left
        intro u hu
        rw [if_neg (by rintro rfl; exact hnot hu)]
      rw [this]
    · rw [if_neg hx, if_neg hx]
      rcases List.mem_cons.1 hw with rfl | hw2
      · exact absurd rfl hx
      · rw [ih (List.nodup_cons.1 hn).2 hw2]

theorem bump_map_not_mem {α : Type} [DecidableEq α] (f : α → Nat)
    {us : List α} {w : α} (hw : w ∉ us) :
    bump w (us.map fun u => (u, f u)) =
      us.map (fun u => (u, f u)) ++ [(w, 1)] := by
  induction us with
  | nil => rfl
  | cons x xs ih =>
    have hx : x ≠ w := by
      rintro rfl
      exact hw (List.mem_cons_self _ _)
    simp only [List.map_cons, bump, if_neg hx, List.cons_append]
    rw [ih fun hm => hw (List.mem_cons_of_mem _ hm)]

theorem buildFreq_eq (ws : List (List Char)) :
    buildFreq ws = (dedupFO ws).map (fun w => (w, ws.count w)) := by
  induction ws using List.reverseRecOn with
  | nil => rfl
  | append_singleton l w ih =>
    rw [buildFreq, List.foldl_append, List.foldl_cons, List.foldl_nil,
      ← buildFreq, ih, dedupFO_append_singleton]
    by_cases hw : w ∈ l
    · rw [if_pos hw, bump_map_mem _ (nodup_dedupFO l) ((mem_dedupFO w l).2 hw)]
      apply List.map_congr_left
      intro u hu
      by_cases huw : u = w
      · subst huw
        simp [List.count_append, List.count_singleton_self]
      · have hwu : ¬ w = u := fun h => huw h.symm
        simp [List.count_append, List.count_singleton, huw, hwu]
    · rw [if_neg hw,
        bump_map_not_mem _ (fun hm => hw ((mem_dedupFO w l).1 hm)),
        List.map_append]
      congr 1
      · apply List.map_congr_left
        intro u hu
        have huw : u ≠ w := by
          rintro rfl
          exact hw ((mem_dedupFO u l).1 hu)
        have hwu : ¬ w = u := fun h => huw h.symm
        simp [List.count_append, List.count_singleton, hwu]
      · simp [List.count_append, List.count_singleton_self,
          List.count_eq_zero_of_not_mem hw]

theorem mem_insCountDesc {α : Type} {x : α × Nat} (y : α × Nat)
    (acc : List (α × Nat)) :
    x ∈ insCountDesc acc y ↔ x = y ∨ x ∈ acc := by
  induction acc with
  | nil => simp [insCountDesc]
  | cons z zs ih =>
    rw [insCountDesc]
    split
    · simp
    · simp only [List.mem_cons, ih]
      tauto

theorem mem_sortCountDesc {α : Type} {x : α × Nat} (l : List (α × Nat)) :
    x ∈ sortCountDesc l ↔ x ∈ l := by
  suffices h : ∀ acc, x ∈ l.foldl insCountDesc acc ↔ x ∈ acc ∨ x ∈ l by
    rw [sortCountDesc, h]
    simp
  induction l with
  | nil => intro acc; simp
  | cons y ys ih =>
    intro acc
    rw [List.foldl_cons, ih, mem_insCountDesc]
    simp only [List.mem_cons]
    tauto

theorem mem_insKeyAsc {x : List Char × Nat} (y : List Char × Nat)
    (acc : List (List Char × Nat)) :
    x ∈ insKeyAsc acc y ↔ x = y ∨ x ∈ acc := by
  induction acc with
  | nil => simp [insKeyAsc]
  | cons z zs ih =>
    rw [insKeyAsc]
    split
    · simp
    · simp only [List.mem_cons, ih]
      tauto

theorem mem_sortKeyAsc {x : List Char × Nat} (l : List (List Char × Nat)) :
    x ∈ sortKeyAsc l ↔ x ∈ l := by
  suffices h : ∀ acc, x ∈ l.foldl insKeyAsc acc ↔ x ∈ acc ∨ x ∈ l by
    rw [sortKeyAsc, h]
    simp
  induction l with
  | nil => intro acc; simp
  | cons y ys ih =>
    intro acc
    rw [List.foldl_cons, ih, mem_insKeyAsc]
    simp only [List.mem_cons]
    tauto

theorem mem_of_mem_entriesOrder {x : List Char × Nat}
    {m : List (List Char × Nat)} (h : x ∈ entriesOrder m) : x ∈ m := by
  rw [entriesOrder] at h
  rcases List.mem_append.1 h with h2 | h2
  · exact List.mem_of_mem_filter ((mem_sortKeyAsc _).1 h2)
  · exact List.mem_of_mem_filter h2

/-- C4 counterexample.  On the raw text "word 2024" the code returns the
topics in the order ["2024", "word"], while the claimed reference procedure
(ties broken by first-occurrence order) returns ["word", "2024"]: the
`Object.entries` enumeration puts the all-digit token "2024" — an
array-index key — ahead of "word", and the stable sort preserves that
order among equal frequencies. -/
theorem claim_C4_counterexample :
    OCRService.extractKeyTopics "word 2024".data =
        ["2024".data, "word".data] ∧
      keyTopicsSpec "word 2024".data = ["word".data, "2024".data] ∧
      OCRService.extractKeyTopics "word 2024".data ≠
        keyTopicsSpec "word 2024".data :=
  ⟨by decide, by decide, by decide⟩

/-- C4 as amended.  Topic extraction equals the claimed reference procedure
with one change: equal-frequency entries are enumerated in the
`Object.entries` order — all-digit tokens that are canonical array-index
keys first, in ascending numeric order, then the remaining tokens in
first-occurrence order — before the stable descending sort; the result has
at most 5 entries and every entry is longer than 3 characters. -/
theorem claim_C4_amended_topics (text : List Char) :
    OCRService.extractKeyTopics text = keyTopicsSpecAmended text ∧
      (OCRService.extractKeyTopics text).length ≤ 5 ∧
      (OCRService.extractKeyTopics text).all
        (fun w => w.length > 3) = true := by
  refine ⟨?_, ?_, ?_⟩
  · simp only [OCRService.extractKeyTopics, keyTopicsSpecAmended]
    rw [buildFreq_eq]
  · rw [OCRService.extractKeyTopics]
    simp only [List.length_map, List.length_take]
    exact min_le_left _ _
  · rw [List.all_eq_true]
    intro w hw
    rw [OCRService.extractKeyTopics] at hw
    rcases List.mem_map.1 hw with ⟨e, he, rfl⟩
    have he2 := (mem_sortCountDesc _).1 (List.mem_of_mem_take he)
    have he3 := mem_of_mem_entriesOrder he2
    rw [buildFreq_eq] at he3
    rcases List.mem_map.1 he3 with ⟨u, hu, rfl⟩
    have hu2 : u ∈ OCRService.topicTokens text := (mem_dedupFO _ _).1 hu
    rw [OCRService.topicTokens] at hu2
    have hlen := (List.mem_filter.1 hu2).2
    simpa using hlen
